import Mathlib

/-!
Verification development for the plainc regex compiler (src/plainc/main.c).

The C program is shallowly embedded: the NFA arena becomes an array of
optional nodes indexed by integers (pointer identity = arena index), the
recursive-descent parser becomes a fuel-indexed interpreter returning
`Except`, bitsets become natural-number bit masks, and the subset
construction / minimization loops become fuel-indexed recursions over
explicit state.  C behaviour that is undefined (reading an uninitialized
variable, dereferencing a null pointer) is surfaced as an explicit error
value of the embedding.
-/

set_option maxRecDepth 20000

namespace Plainc

/-- Modelled from the spec: `bitset.h` is not part of src.  Per spec section 3.3 a
bitset is a logical set over ASCII-sized domain (a 128-bit value suffices,
section 9); we model it as a natural number bit mask.  `bitset_set` sets one bit. -/
def bitset_set (b : Nat) (c : Nat) : Nat := b ||| (1 <<< c)

/-- Modelled from the spec: membership test of the bitset library. -/
def bitset_get (b : Nat) (c : Nat) : Bool := b.testBit c

/-- Modelled from the spec: `bitset_count` is the population count of the
128-bit set (spec section 3.3 and section 9). -/
def bitset_count (b : Nat) : Nat :=
  (List.range 128).countP (fun i => b.testBit i)

/-- Modelled from the spec: `bitset_intersection_count(a,b)` counts the members
of the intersection (spec section 3.3). -/
def bitset_intersection_count (a b : Nat) : Nat :=
  (List.range 128).countP (fun i => a.testBit i && b.testBit i)

/-- The `bitset_equals` macro of main.c, exactly as written:
`bitset_intersection_count(b1, b2) == bitset_count(b1)`. -/
def bitset_equals (b1 b2 : Nat) : Bool :=
  bitset_intersection_count b1 b2 == bitset_count b1

/-- Token kinds of the regex lexer (`regex_token_t`). -/
inductive RegexToken
  | eoi
  | left_bracket
  | right_bracket
  | left_paren
  | right_paren
  | carat
  | dash
  | dot
  | dollar
  | literal
  | pipe
  | plus
  | question_mark
  | star
deriving DecidableEq, Repr

/-- `regex_token_from_char` of main.c. -/
def regex_token_from_char (c : Char) : RegexToken :=
  if c == '$' then RegexToken.dollar
  else if c == '(' then RegexToken.left_paren
  else if c == ')' then RegexToken.right_paren
  else if c == '*' then RegexToken.star
  else if c == '+' then RegexToken.plus
  else if c == '-' then RegexToken.dash
  else if c == '.' then RegexToken.dot
  else if c == '?' then RegexToken.question_mark
  else if c == '[' then RegexToken.left_bracket
  else if c == ']' then RegexToken.right_bracket
  else if c == '^' then RegexToken.carat
  else if c == '|' then RegexToken.pipe
  else RegexToken.literal

/-- Lexer state: the remaining input (the C code's `input` pointer), the
current token, current lexeme and the quote flag. -/
structure LexState where
  input : List Char
  current_token : RegexToken
  current_lexeme : Char
  in_quote : Bool
deriving DecidableEq, Repr

/-- `esc` of main.c: maps an escape sequence to its character, advancing past
the backslash; a non-escape returns the character with the input unchanged
(the caller consumes one character afterwards in both cases). -/
def esc : List Char → Char × List Char
  | [] => (Char.ofNat 0, [])
  | c :: rest =>
    if c == '\\' then
      match rest with
      | [] => (Char.ofNat 0, [])
      | e :: _ =>
        (if e == 't' then '\t'
         else if e == 'n' then '\n'
         else if e == 'r' then '\r'
         else e, rest)
    else (c, c :: rest)

/-- `advance` of main.c: reads the next token. -/
def advance (s0 : LexState) : LexState :=
  match s0.input with
  | [] => { s0 with current_token := RegexToken.eoi, current_lexeme := Char.ofNat 0 }
  | c0 :: rest0 =>
    let s1 := if c0 == '"' then { s0 with in_quote := !s0.in_quote, input := rest0 } else s0
    match s1.input with
    | [] => { s1 with current_token := RegexToken.eoi, current_lexeme := Char.ofNat 0 }
    | c :: rest =>
      if s1.in_quote then
        if c == '\\' && rest.head? == some '"' then
          { s1 with input := rest.drop 1, current_lexeme := '"',
                    current_token := RegexToken.literal }
        else
          { s1 with input := rest, current_lexeme := c,
                    current_token := RegexToken.literal }
      else
        let er := esc (c :: rest)
        { s1 with input := er.2.drop 1, current_lexeme := er.1,
                  current_token :=
                    if c == '\\' then RegexToken.literal
                    else regex_token_from_char er.1 }

/-- Token stream observer: repeatedly `advance` until `EOI`, collecting the
produced tokens (including the final `EOI`). -/
def lex_tokens_go : Nat → LexState → List RegexToken
  | 0, _ => []
  | fuel + 1, s =>
    let s2 := advance s
    if s2.current_token == RegexToken.eoi then [RegexToken.eoi]
    else s2.current_token :: lex_tokens_go fuel s2

/-- The full token stream an `advance` loop yields from a lexer state. -/
def lex_tokens (s : LexState) : List RegexToken :=
  lex_tokens_go (s.input.length + 1) s

/-- One NFA node (`nfa_node_t`): successors are arena indices, `edge` is the C
integer tag (0 = epsilon, -2 = character class, otherwise a character code). -/
structure NfaNode where
  next0 : Option Nat
  next1 : Option Nat
  edge : Int
  bitset : Nat
  complement : Bool
  anchor : Nat
  index : Nat
deriving DecidableEq, Repr

/-- Parser/builder state (`nfa_parser_state_t`): the node arena (freed slots
are `none`), the discard stack, and the lexer state. -/
structure PState where
  nfa : Array (Option NfaNode)
  discard_stack : List Nat
  lex : LexState
deriving DecidableEq, Repr

/-- Bounds-checked array update (no-op out of bounds). -/
def aset {α : Type} (a : Array α) (i : Nat) (v : α) : Array α :=
  if h : i < a.size then a.set ⟨i, h⟩ v else a

/-- Array read with the `Inhabited` default out of bounds. -/
def aget {α : Type} [Inhabited α] (a : Array α) (i : Nat) : α :=
  a.getD i default

/-- `alloc_nfa` of main.c: allocate a zeroed node, preferring a slot from the
discard stack; the node's `index` field records its slot. -/
def alloc_nfa (st : PState) : Nat × PState :=
  match st.discard_stack with
  | [] =>
    let idx := st.nfa.size
    let node : NfaNode :=
      { next0 := none, next1 := none, edge := 0, bitset := 0,
        complement := false, anchor := 0, index := idx }
    (idx, { st with nfa := st.nfa.push (some node) })
  | d :: rest =>
    let node : NfaNode :=
      { next0 := none, next1 := none, edge := 0, bitset := 0,
        complement := false, anchor := 0, index := d }
    (d, { st with discard_stack := rest, nfa := aset st.nfa d (some node) })

/-- `discard_nfa` of main.c: push the node's stored `index` field on the
discard stack and clear that slot (faithfully using the field, which may be
stale after a `memcpy` merge). -/
def discard_nfa (st : PState) (nodeIdx : Nat) : PState :=
  match st.nfa.getD nodeIdx none with
  | none => st
  | some node =>
    { st with discard_stack := node.index :: st.discard_stack,
              nfa := aset st.nfa node.index none }

/-- Update one arena node in place (a C pointer write). -/
def upd_node (st : PState) (i : Nat) (f : NfaNode → NfaNode) : PState :=
  match st.nfa.getD i none with
  | none => st
  | some n => { st with nfa := aset st.nfa i (some (f n)) }

/-- Advance the embedded lexer inside the parser state. -/
def padvance (st : PState) : PState := { st with lex := advance st.lex }

/-- Errors of the embedding.  The parse errors correspond one-to-one to the
`fprintf`/`exit(1)` sites of main.c; `uninitRead` marks the read of the
uninitialized `first` variable in `do_dash`; `nullDeref` marks a C null (or
indeterminate) pointer dereference; `outOfFuel` marks exhausted fuel. -/
inductive Err
  | starMustFollow
  | plusMustFollow
  | questionMustFollow
  | strayRightBracket
  | strayCarat
  | expectedRightParen
  | uninitRead
  | nullDeref
  | outOfFuel
deriving DecidableEq, Repr

/-- `first_in_cat` of main.c: decides whether a token can start a
concatenation factor; the error cases are the program's fatal diagnostics. -/
def first_in_cat : RegexToken → Except Err Bool
  | RegexToken.right_paren => Except.ok false
  | RegexToken.dollar => Except.ok false
  | RegexToken.pipe => Except.ok false
  | RegexToken.eoi => Except.ok false
  | RegexToken.star => Except.error Err.starMustFollow
  | RegexToken.plus => Except.error Err.plusMustFollow
  | RegexToken.question_mark => Except.error Err.questionMustFollow
  | RegexToken.right_bracket => Except.error Err.strayRightBracket
  | RegexToken.carat => Except.error Err.strayCarat
  | _ => Except.ok true

/-- Set the inclusive integer range `[lo, hi]` of bits (the `for` loop of
`do_dash`'s range branch). -/
def bitset_set_range (b : Nat) (lo hi : Int) : Nat :=
  (List.range ((hi + 1 - lo).toNat)).foldl
    (fun acc k => bitset_set acc (lo + Int.ofNat k).toNat) b

/-- `do_dash` of main.c.  `first` is the C local variable of the same name:
`none` models its uninitialized state; the range branch reading it while
uninitialized is surfaced as `Err.uninitRead`. -/
def do_dash : Nat → PState → Nat → Option Int → Except Err (Nat × PState)
  | 0, _, _, _ => Except.error Err.outOfFuel
  | fuel + 1, st, bset, first =>
    if st.lex.current_token != RegexToken.eoi &&
       st.lex.current_token != RegexToken.right_bracket then
      if st.lex.current_token != RegexToken.dash then
        let f : Int := Int.ofNat st.lex.current_lexeme.toNat
        do_dash fuel (padvance st) (bitset_set bset st.lex.current_lexeme.toNat) (some f)
      else
        let st2 := padvance st
        match first with
        | none => Except.error Err.uninitRead
        | some f =>
          let lexv : Int := Int.ofNat st2.lex.current_lexeme.toNat
          let bset2 := bitset_set_range bset f lexv
          let f2 := if f ≤ lexv then lexv + 1 else f
          do_dash fuel (padvance st2) bset2 (some f2)
    else Except.ok (bset, st)

/-- Call tags for the mutually recursive parser functions of main.c
(`machine`, `rule`, `expr`, `cat_expr`, `factor`, `term` and their internal
loops), defunctionalized so a single fuel-indexed interpreter runs them. -/
inductive PCall
  | machine
  | machineLoop (m0 p : Nat)
  | rule
  | expr (s e : Option Nat)
  | exprLoop (s e : Option Nat)
  | cat_expr (s e : Option Nat)
  | catLoop (s e : Option Nat)
  | factor (s e : Option Nat)
  | term (s e : Option Nat)
deriving DecidableEq, Repr

/-- Results of parser calls: a fragment (start/end node pointers, possibly
null), a rule start pointer, or the machine start node. -/
inductive PRet
  | frag (s e : Option Nat)
  | rstart (s : Option Nat)
  | node (i : Nat)
deriving DecidableEq, Repr

/-- Tail of `rule` in main.c: write the anchor on the end node and advance. -/
def rule_anchor (s e : Option Nat) (anch : Nat) (st : PState) :
    Except Err (PRet × PState) :=
  match e with
  | none => Except.error Err.nullDeref
  | some ei =>
    Except.ok (PRet.rstart s, padvance (upd_node st ei (fun n => { n with anchor := anch })))

/-- `$` handling at the end of `rule` in main.c: append a `{'\n','\r'}`
class node and record `ANCHOR_EOL`, then write the anchor. -/
def rule_finish (s e : Option Nat) (anch : Nat) (st : PState) :
    Except Err (PRet × PState) :=
  if st.lex.current_token == RegexToken.dollar then
    let st2 := padvance st
    match e with
    | none => Except.error Err.nullDeref
    | some ei =>
      let ni := (alloc_nfa st2).1
      let st3 := (alloc_nfa st2).2
      let st4 := upd_node st3 ei (fun n =>
        { n with next0 := some ni, edge := -2,
                 bitset := bitset_set (bitset_set 0 10) 13 })
      rule_anchor s (some ni) (anch ||| 2) st4
  else rule_anchor s e anch st

/-- The recursive-descent parser / Thompson NFA builder of main.c as a single
fuel-indexed interpreter over the defunctionalized call tags.  Each case is a
line-by-line transcription of the corresponding C function. -/
def run : Nat → PCall → PState → Except Err (PRet × PState)
  | 0, _, _ => Except.error Err.outOfFuel
  | fuel + 1, call, st =>
    match call with
    | PCall.machine =>
      let m0 := (alloc_nfa st).1
      let st1 := padvance (alloc_nfa st).2
      (match run fuel PCall.rule st1 with
       | Except.error e => Except.error e
       | Except.ok (PRet.rstart r, st2) =>
         run fuel (PCall.machineLoop m0 m0) (upd_node st2 m0 (fun n => { n with next0 := r }))
       | Except.ok _ => Except.error Err.nullDeref)
    | PCall.machineLoop m0 p =>
      if st.lex.current_token == RegexToken.eoi then Except.ok (PRet.node m0, st)
      else
        let q := (alloc_nfa st).1
        let st1 := (alloc_nfa st).2
        let st2 := upd_node st1 p (fun n => { n with next1 := some q })
        (match run fuel PCall.rule st2 with
         | Except.error e => Except.error e
         | Except.ok (PRet.rstart r, st3) =>
           run fuel (PCall.machineLoop m0 q) (upd_node st3 q (fun n => { n with next0 := r }))
         | Except.ok _ => Except.error Err.nullDeref)
    | PCall.rule =>
      if st.lex.current_token == RegexToken.carat then
        let s0 := (alloc_nfa st).1
        let st1 := (alloc_nfa st).2
        let st2 := padvance (upd_node st1 s0 (fun n => { n with edge := 10 }))
        (match run fuel (PCall.expr none none) st2 with
         | Except.error e => Except.error e
         | Except.ok (PRet.frag fs fe, st3) =>
           rule_finish (some s0) fe 1 (upd_node st3 s0 (fun n => { n with next0 := fs }))
         | Except.ok _ => Except.error Err.nullDeref)
      else
        (match run fuel (PCall.expr none none) st with
         | Except.error e => Except.error e
         | Except.ok (PRet.frag fs fe, st1) => rule_finish fs fe 0 st1
         | Except.ok _ => Except.error Err.nullDeref)
    | PCall.expr s e =>
      (match run fuel (PCall.cat_expr s e) st with
       | Except.error er => Except.error er
       | Except.ok (PRet.frag s2 e2, st1) => run fuel (PCall.exprLoop s2 e2) st1
       | Except.ok _ => Except.error Err.nullDeref)
    | PCall.exprLoop s e =>
      if st.lex.current_token == RegexToken.pipe then
        let st1 := padvance st
        (match run fuel (PCall.cat_expr none none) st1 with
         | Except.error er => Except.error er
         | Except.ok (PRet.frag e2s e2e, st2) =>
           let p := (alloc_nfa st2).1
           let st3 := (alloc_nfa st2).2
           let st4 := upd_node st3 p (fun n => { n with next1 := e2s, next0 := s })
           let p2 := (alloc_nfa st4).1
           let st5 := (alloc_nfa st4).2
           (match e, e2e with
            | some ei, some e2ei =>
              let st6 := upd_node st5 ei (fun n => { n with next0 := some p2 })
              let st7 := upd_node st6 e2ei (fun n => { n with next0 := some p2 })
              run fuel (PCall.exprLoop (some p) (some p2)) st7
            | _, _ => Except.error Err.nullDeref)
         | Except.ok _ => Except.error Err.nullDeref)
      else Except.ok (PRet.frag s e, st)
    | PCall.cat_expr s e =>
      (match first_in_cat st.lex.current_token with
       | Except.error er => Except.error er
       | Except.ok fc =>
         if fc then
           (match run fuel (PCall.factor s e) st with
            | Except.error er => Except.error er
            | Except.ok (PRet.frag s2 e2, st1) => run fuel (PCall.catLoop s2 e2) st1
            | Except.ok _ => Except.error Err.nullDeref)
         else run fuel (PCall.catLoop s e) st)
    | PCall.catLoop s e =>
      (match first_in_cat st.lex.current_token with
       | Except.error er => Except.error er
       | Except.ok fc =>
         if fc then
           (match run fuel (PCall.factor none none) st with
            | Except.error er => Except.error er
            | Except.ok (PRet.frag e2s e2e, st1) =>
              (match e, e2s with
               | some ei, some e2si =>
                 (match st1.nfa.getD e2si none with
                  | none => Except.error Err.nullDeref
                  | some srcNode =>
                    let st2 := { st1 with nfa := aset st1.nfa ei (some srcNode) }
                    run fuel (PCall.catLoop s e2e) (discard_nfa st2 e2si))
               | _, _ => Except.error Err.nullDeref)
            | Except.ok _ => Except.error Err.nullDeref)
         else Except.ok (PRet.frag s e, st))
    | PCall.factor s e =>
      (match run fuel (PCall.term s e) st with
       | Except.error er => Except.error er
       | Except.ok (PRet.frag s2 e2, st1) =>
         let t := st1.lex.current_token
         if t == RegexToken.star || t == RegexToken.plus || t == RegexToken.question_mark then
           let sn := (alloc_nfa st1).1
           let st2 := (alloc_nfa st1).2
           let en := (alloc_nfa st2).1
           let st3 := (alloc_nfa st2).2
           let st4 := upd_node st3 sn (fun n => { n with next0 := s2 })
           (match e2 with
            | none => Except.error Err.nullDeref
            | some ei =>
              let st5 := upd_node st4 ei (fun n => { n with next0 := some en })
              let st6 := if t == RegexToken.star || t == RegexToken.question_mark
                         then upd_node st5 sn (fun n => { n with next1 := some en }) else st5
              let st7 := if t == RegexToken.star || t == RegexToken.plus
                         then upd_node st6 ei (fun n => { n with next1 := s2 }) else st6
              Except.ok (PRet.frag (some sn) (some en), padvance st7))
         else Except.ok (PRet.frag s2 e2, st1)
       | Except.ok _ => Except.error Err.nullDeref)
    | PCall.term s e =>
      if st.lex.current_token == RegexToken.left_paren then
        let st1 := padvance st
        (match run fuel (PCall.expr s e) st1 with
         | Except.error er => Except.error er
         | Except.ok (PRet.frag s2 e2, st2) =>
           if st2.lex.current_token == RegexToken.right_paren then
             Except.ok (PRet.frag s2 e2, padvance st2)
           else Except.error Err.expectedRightParen
         | Except.ok _ => Except.error Err.nullDeref)
      else
        let sn := (alloc_nfa st).1
        let st1 := (alloc_nfa st).2
        let en := (alloc_nfa st1).1
        let st2 := (alloc_nfa st1).2
        let st3 := upd_node st2 sn (fun n => { n with next0 := some en })
        if st3.lex.current_token != RegexToken.dot &&
           st3.lex.current_token != RegexToken.left_bracket then
          let st4 := upd_node st3 sn (fun n =>
            { n with edge := Int.ofNat st3.lex.current_lexeme.toNat })
          Except.ok (PRet.frag (some sn) (some en), padvance st4)
        else
          if st3.lex.current_token == RegexToken.dot then
            let st4 := upd_node st3 sn (fun n =>
              { n with edge := -2, bitset := bitset_set (bitset_set 0 10) 13,
                       complement := true })
            Except.ok (PRet.frag (some sn) (some en), padvance st4)
          else
            let st4 := padvance st3
            let seeded := if st4.lex.current_token == RegexToken.carat
                          then bitset_set (bitset_set 0 10) 13 else 0
            let compl := st4.lex.current_token == RegexToken.carat
            let st5 := if st4.lex.current_token == RegexToken.carat then padvance st4 else st4
            if st5.lex.current_token != RegexToken.right_bracket then
              (match do_dash fuel st5 seeded none with
               | Except.error er => Except.error er
               | Except.ok (bset, st6) =>
                 let st7 := upd_node st6 sn (fun n =>
                   { n with edge := -2, bitset := bset, complement := compl })
                 Except.ok (PRet.frag (some sn) (some en), padvance st7))
            else
              let bset := (List.range 33).foldl (fun b c => bitset_set b c) seeded
              let st6 := upd_node st5 sn (fun n =>
                { n with edge := -2, bitset := bset, complement := compl })
              Except.ok (PRet.frag (some sn) (some en), padvance st6)

/-- The compacted NFA handed to the subset construction (`nfa_t`). -/
structure Nfa where
  nodes : Array (Option NfaNode)
  start : Nat
deriving DecidableEq, Repr

/-- `thompson` of main.c: run the parser, read the machine start node's
`index` field, then renumber the `index` field of every live node to its
arena slot. -/
def thompson (input : String) : Except Err Nfa :=
  let st : PState :=
    { nfa := #[], discard_stack := [],
      lex := { input := input.toList, current_token := RegexToken.eoi,
               current_lexeme := Char.ofNat 0, in_quote := false } }
  match run (16 * input.length + 64) PCall.machine st with
  | Except.error e => Except.error e
  | Except.ok (PRet.node m0, stf) =>
    (match stf.nfa.getD m0 none with
     | none => Except.error Err.nullDeref
     | some mnode =>
       let nodes := (Array.range stf.nfa.size).map (fun i =>
         match stf.nfa.getD i none with
         | none => none
         | some n => some { n with index := i })
       Except.ok { nodes := nodes, start := mnode.index })
  | Except.ok _ => Except.error Err.nullDeref

/-- One DFA node (`dfa_node_t`): the NFA-index bitset, the diagnostic id, the
parallel `chars`/`next` vectors as a single list of (label bitset, target
index) pairs, the minimization partition id, and the `index` field. -/
structure DfaNode where
  bitset : Nat
  id : Nat
  trans : List (Nat × Nat)
  partition : Nat
  index : Nat
deriving DecidableEq, Repr

instance : Inhabited DfaNode :=
  ⟨{ bitset := 0, id := 0, trans := [], partition := 0, index := 0 }⟩

/-- Push step of `epsilon_closure`'s worklist: if the successor exists and its
index is not yet in the closure bitset, set the bit and push the index. -/
def closure_push (nfa : Nfa) (nx : Option Nat) (sa : List Nat × Nat) : List Nat × Nat :=
  match nx with
  | none => sa
  | some j =>
    match nfa.nodes.getD j none with
    | none => sa
    | some q =>
      if bitset_get sa.2 q.index then sa
      else (q.index :: sa.1, bitset_set sa.2 q.index)

/-- Worklist loop of `epsilon_closure` of main.c. -/
def closure_loop (nfa : Nfa) : Nat → List Nat → Nat → Nat
  | 0, _, acc => acc
  | _ + 1, [], acc => acc
  | fuel + 1, i :: stack, acc =>
    match nfa.nodes.getD i none with
    | none => closure_loop nfa fuel stack acc
    | some p =>
      if p.edge == 0 then
        let sa := closure_push nfa p.next1 (closure_push nfa p.next0 (stack, acc))
        closure_loop nfa fuel sa.1 sa.2
      else closure_loop nfa fuel stack acc

/-- `epsilon_closure` of main.c: the epsilon closure of an NFA-index bitset
(in place: the input set is grown). -/
def epsilon_closure (nfa : Nfa) (input : Nat) : Nat :=
  let stack := ((List.range nfa.nodes.size).filter (fun i => bitset_get input i)).reverse
  closure_loop nfa (2 * nfa.nodes.size + 4) stack input

/-- `move` of main.c: the set of NFA nodes reachable on character `c` from the
set `input`; `none` models the C function's NULL result bitset (empty move). -/
def move (nfa : Nfa) (input : Nat) (c : Nat) : Option Nat :=
  (List.range nfa.nodes.size).reverse.foldl
    (fun outset i =>
      if bitset_get input i then
        match nfa.nodes.getD i none with
        | none => outset
        | some p =>
          if p.edge == Int.ofNat c ||
             (p.edge == -2 && (p.complement != bitset_get p.bitset c)) then
            match p.next0 with
            | some j =>
              match nfa.nodes.getD j none with
              | some q => some (bitset_set (outset.getD 0) q.index)
              | none => outset
            | none => outset
          else outset
      else outset)
    none

/-- Per-character body of the subset construction worklist (`nfa_to_dfa`):
compute the move and closure for `(di, c)`, reuse the first existing DFA node
whose bitset passes `bitset_equals`, or append a fresh node and enqueue it. -/
def ntd_char (nfa : Nfa) (dfa : Array DfaNode) (work : List Nat) (di : Nat) (c : Nat) :
    Array DfaNode × List Nat :=
  match move nfa (aget dfa di).bitset c with
  | none => (dfa, work)
  | some mset =>
    let dj := epsilon_closure nfa mset
    match (List.range dfa.size).find? (fun i => bitset_equals (aget dfa i).bitset dj) with
    | some i =>
      let node := aget dfa di
      (match node.trans.findIdx? (fun p => p.2 == i) with
       | some j =>
         let tr := node.trans.getD j (0, 0)
         (aset dfa di { node with trans := node.trans.set j (bitset_set tr.1 c, tr.2) }, work)
       | none =>
         (aset dfa di { node with trans := node.trans ++ [(bitset_set 0 c, i)] }, work))
    | none =>
      let newIdx := dfa.size
      let node := aget dfa di
      let dfa2 := aset dfa di { node with trans := node.trans ++ [(bitset_set 0 c, newIdx)] }
      let fresh : DfaNode := { bitset := dj, id := 0, trans := [], partition := 0, index := 0 }
      (dfa2.push fresh, newIdx :: work)

/-- Worklist loop of `nfa_to_dfa`: pop a node, assign its id, and process the
characters 1..126 in order.  The C loop body does nothing for a character
whose `move` set is empty (it only frees the empty temporary), and `ntd_char`
is the identity there, so the fold ranges over exactly the characters with a
non-empty move, in the same ascending order. -/
def ntd_loop (nfa : Nfa) : Nat → Array DfaNode → List Nat → Nat → Array DfaNode
  | 0, dfa, _, _ => dfa
  | _ + 1, dfa, [], _ => dfa
  | fuel + 1, dfa, di :: work, idc =>
    let dfa2 := aset dfa di { aget dfa di with id := idc }
    let cs := (List.range' 1 126).filter
      (fun c => (move nfa (aget dfa2 di).bitset c).isSome)
    let dw := cs.foldl
      (fun (acc : Array DfaNode × List Nat) c => ntd_char nfa acc.1 acc.2 di c)
      (dfa2, work)
    ntd_loop nfa fuel dw.1 dw.2 (idc + 1)

/-- `nfa_to_dfa` of main.c: subset construction, then renumber every node's
`index` field to its array position. -/
def nfa_to_dfa (nfa : Nfa) : Array DfaNode :=
  let d0 : DfaNode :=
    { bitset := epsilon_closure nfa (bitset_set 0 nfa.start), id := 0,
      trans := [], partition := 0, index := 0 }
  let dfa := ntd_loop nfa (2 ^ nfa.nodes.size + 8) #[d0] [0] 65
  (Array.range dfa.size).map (fun i => { aget dfa i with index := i })

/-- `do_goto` of main.c: the target of the unique transition whose label
bitset contains `c`, or `none`. -/
def do_goto (node : DfaNode) (c : Nat) : Option Nat :=
  (node.trans.find? (fun p => bitset_get p.1 c)).map (fun p => p.2)

/-- Initial partitioning of `minimize_dfa`: partition 0 holds the states with
no outgoing transitions (the implementation's accepting states), partition 1
the rest; the `partition` field of each node is set accordingly. -/
def dfa_init_partitions (dfa : Array DfaNode) :
    Array DfaNode × Array (Array (Option Nat)) :=
  let dfa2 := (Array.range dfa.size).map (fun i =>
    { aget dfa i with partition := if (aget dfa i).trans.isEmpty then 0 else 1 })
  let accepting :=
    (((List.range dfa.size).filter (fun i => (aget dfa i).trans.isEmpty)).map some).toArray
  let nonaccepting :=
    (((List.range dfa.size).filter (fun i => !(aget dfa i).trans.isEmpty)).map some).toArray
  (dfa2, #[accepting, nonaccepting])

/-- Distinguishability test of `minimize_dfa`'s inner loop: some character
`c ∈ [0,126]` for which exactly one of `goto(first,c)`, `goto(m,c)` is nil, or
both targets exist but lie in different partitions. -/
def refine_member (dfa : Array DfaNode) (first dij : Nat) : Bool :=
  (List.range 127).any (fun c =>
    let g1 := do_goto (aget dfa first) c
    let g2 := do_goto (aget dfa dij) c
    (g1.isNone != g2.isNone) ||
    (match g1, g2 with
     | some t1, some t2 => (aget dfa t1).partition != (aget dfa t2).partition
     | _, _ => false))

/-- One pass of `minimize_dfa` over partition `i`: move distinguishable
members to a new partition, then null out entries `0 .. removals.length - 1`
of the old partition list (the C code writes `pi->data[j] = NULL` with the
loop counter `j`, not the recorded removal position). -/
def refine_step (dfa : Array DfaNode) (parts : Array (Array (Option Nat))) (i : Nat) :
    Array DfaNode × Array (Array (Option Nat)) :=
  let pi := parts.getD i #[]
  match pi.getD 0 none with
  | none => (dfa, parts)
  | some first =>
    let step := (List.range pi.size).foldl
      (fun (acc : Array DfaNode × List Nat × List Nat) j =>
        if j == 0 then acc else
        match pi.getD j none with
        | none => acc
        | some dij =>
          if refine_member acc.1 first dij then
            (aset acc.1 dij { aget acc.1 dij with partition := parts.size },
             acc.2.1 ++ [dij], acc.2.2 ++ [j])
          else acc)
      (dfa, ([], []))
    let newp := step.2.1
    let removals := step.2.2
    let parts2 := if newp.isEmpty then parts else parts.push ((newp.map some).toArray)
    let pi2 := (Array.range pi.size).map
      (fun j => if j < removals.length then none else pi.getD j none)
    (step.1, aset parts2 i pi2)

/-- The partition loop of `minimize_dfa`: a single pass of index `i` over the
partition list, which may grow while the loop runs; `i` is never reset. -/
def refine_loop : Nat → Array DfaNode → Array (Array (Option Nat)) → Nat →
    Array DfaNode × Array (Array (Option Nat))
  | 0, dfa, parts, _ => (dfa, parts)
  | fuel + 1, dfa, parts, i =>
    if i < parts.size then
      let dp := refine_step dfa parts i
      refine_loop fuel dp.1 dp.2 (i + 1)
    else (dfa, parts)

/-- Refinement phase of `minimize_dfa`: initial partitioning followed by the
growing-list pass; returns the mutated DFA (partition fields) and the final
partition lists as they stand at collapse time. -/
def minimize_refine (dfa : Array DfaNode) :
    Array DfaNode × Array (Array (Option Nat)) :=
  let dp := dfa_init_partitions dfa
  refine_loop (dfa.size + 4) dp.1 dp.2 0

/-- Collapse of one partition in `minimize_dfa`: take the first non-null
member as representative; keep each of its transitions only when the target's
partition id was not seen before (no union of labels), retargeted to the
partition id. -/
def collapse_node (dfa : Array DfaNode) (part : Array (Option Nat)) (i : Nat) : DfaNode :=
  match part.toList.findSome? (fun x => x) with
  | none => default
  | some ci =>
    let cur := aget dfa ci
    let tr := cur.trans.foldl
      (fun (acc : List (Nat × Nat) × List Nat) p =>
        let tp := (aget dfa p.2).partition
        if acc.2.contains tp then acc
        else (acc.1 ++ [(p.1, tp)], acc.2 ++ [tp]))
      ([], [])
    { bitset := cur.bitset, id := 65 + i, trans := tr.1, partition := 0, index := 0 }

/-- `minimize_dfa` of main.c: refinement then collapse, one output node per
partition, in partition order. -/
def minimize_dfa (dfa : Array DfaNode) : Array DfaNode :=
  let rp := minimize_refine dfa
  (Array.range rp.2.size).map (fun i => collapse_node rp.1 (rp.2.getD i #[]) i)

/-- Modelled from the spec: the source never runs the minimized DFA, so no
start state is recorded in `dfa_t`; per spec sections 4.3/4.4 the start state of
the minimized DFA is the class of the pre-minimization start state `D0`
(array position 0), i.e. its final `partition` field. -/
def minimize_start (dfa : Array DfaNode) : Nat :=
  ((minimize_refine dfa).1.getD 0 default).partition

/-- Modelled from the spec: the runtime matcher consuming the table is out of
scope of the source (spec section 1), so running a DFA is modelled directly:
follow `do_goto` on each character, `none` when a character has no
transition. -/
def dfa_run : Array DfaNode → Nat → List Nat → Option Nat
  | _, cur, [] => some cur
  | dfa, cur, c :: s =>
    match do_goto (aget dfa cur) c with
    | none => none
    | some t => dfa_run dfa t s

/-- Modelled from the spec: acceptance of a string by a DFA state, with the
implementation's accepting criterion of spec section 3.2 (a DFA node is accepting
iff it has no outgoing transitions). -/
def dfa_accepts (dfa : Array DfaNode) (start : Nat) (s : List Nat) : Bool :=
  match dfa_run dfa start s with
  | none => false
  | some q => (aget dfa q).trans.isEmpty

/-- Two DFA states are language-equivalent: they accept exactly the same
strings. -/
def dfa_states_equiv (dfa : Array DfaNode) (i j : Nat) : Prop :=
  ∀ s : List Nat, dfa_accepts dfa i s = dfa_accepts dfa j s

/-- Cells printed by `emit_dfa_state_table` for one state and one ASCII code:
the C code prints the `index` field of the target of every transition whose
label contains `c` (no break), or the single cell `0` when none does. -/
def emit_cells (dfa : Array DfaNode) (node : DfaNode) (c : Nat) : List Int :=
  let hits := node.trans.filter (fun p => bitset_get p.1 c)
  if hits.isEmpty then [(0 : Int)]
  else hits.map (fun p => Int.ofNat (aget dfa p.2).index)

/-- One row of `emit_dfa_state_table` for a real state: the cells for each
ASCII code `c ∈ [0,126]` in order. -/
def emit_row (dfa : Array DfaNode) (node : DfaNode) : List Int :=
  (List.range 127).flatMap (emit_cells dfa node)

/-- `emit_dfa_state_table` of main.c: a sentinel row 0 of 127 cells `-1`,
then one row per DFA state. -/
def emit_dfa_state_table (dfa : Array DfaNode) : List (List Int) :=
  List.replicate 127 (-1) :: dfa.toList.map (emit_row dfa)

/-- The NFA produced for a regex (the empty NFA on a parse error). -/
def nfaOf (r : String) : Nfa :=
  match thompson r with
  | Except.ok n => n
  | Except.error _ => { nodes := #[], start := 0 }

/-- The pre-minimization DFA produced for a regex by the full pipeline. -/
def dfaOf (r : String) : Array DfaNode := nfa_to_dfa (nfaOf r)

/-- The terminal nodes of an NFA (no primary successor). -/
def nfa_terminals (nfa : Nfa) : List Nat :=
  (List.range nfa.nodes.size).filter (fun i =>
    match nfa.nodes.getD i none with
    | some n => n.next0.isNone
    | none => false)

instance {ε α : Type} [DecidableEq ε] [DecidableEq α] : DecidableEq (Except ε α) :=
  fun x y =>
  match x, y with
  | Except.ok a, Except.ok b =>
    if h : a = b then isTrue (by rw [h]) else isFalse (fun he => h (by cases he; rfl))
  | Except.error a, Except.error b =>
    if h : a = b then isTrue (by rw [h]) else isFalse (fun he => h (by cases he; rfl))
  | Except.ok _, Except.error _ => isFalse (fun he => Except.noConfusion he)
  | Except.error _, Except.ok _ => isFalse (fun he => Except.noConfusion he)

/-- A lexer state inside an open quote whose remaining input is "ab". -/
def lexQuoteSample : LexState :=
  { input := ['a', 'b'], current_token := RegexToken.eoi,
    current_lexeme := 'x', in_quote := true }

/-- A lexer state whose remaining input is a single double quote. -/
def lexLoneQuote : LexState :=
  { input := ['"'], current_token := RegexToken.eoi,
    current_lexeme := 'x', in_quote := false }

/-- A concrete parser state whose current token is Dash, as produced inside a
character class that begins with '-'. -/
def pstDash : PState :=
  { nfa := #[], discard_stack := [],
    lex := { input := ['z', ']'], current_token := RegexToken.dash,
             current_lexeme := '-', in_quote := false } }

theorem aget_eq_getElem {α : Type} [Inhabited α] (a : Array α) (i : Nat) (h : i < a.size) :
    aget a i = a[i] := by
  simp [aget, Array.getD, h]

theorem find?_eq_head?_filter {α : Type} (p : α → Bool) (l : List α) :
    l.find? p = (l.filter p).head? := by
  induction l with
  | nil => rfl
  | cons a t ih =>
    by_cases h : p a
    · rw [List.find?_cons_of_pos _ h, List.filter_cons, if_pos h]
      rfl
    · rw [List.find?_cons_of_neg _ h, List.filter_cons, if_neg h, ih]

theorem flatMap_len1_getD (f : Nat → List Int) :
    ∀ (l : List Nat), (∀ x ∈ l, (f x).length = 1) → ∀ i, ∀ hi : i < l.length,
      (l.flatMap f).getD i 0 = (f l[i]).headD 0 := by
  intro l
  induction l with
  | nil => intro _ i hi; exact absurd hi (by simp)
  | cons a t ih =>
    intro h i hi
    obtain ⟨v, hv⟩ := List.length_eq_one.mp (h a (by simp))
    have hchain : (a :: t).flatMap f = v :: t.flatMap f := by
      rw [List.flatMap_cons, hv]; rfl
    cases i with
    | zero => rw [hchain, List.getD_cons_zero]; simp [hv]
    | succ n =>
      rw [hchain, List.getD_cons_succ]
      have ht : ∀ x ∈ t, (f x).length = 1 := fun x hx => h x (List.mem_cons_of_mem _ hx)
      have hn : n < t.length := by simpa using hi
      rw [ih ht n hn]
      congr 1

theorem getD_map_lt {α β : Type} (f : α → β) :
    ∀ (l : List α) (i : Nat), ∀ _hi : i < l.length, ∀ d : β,
      (l.map f).getD i d = f l[i] := by
  intro l
  induction l with
  | nil => intro i hi; exact absurd hi (by simp)
  | cons a t ih =>
    intro i hi d
    cases i with
    | zero => rfl
    | succ n =>
      rw [List.map_cons, List.getD_cons_succ]
      have hn : n < t.length := by simpa using hi
      rw [ih n hn]
      congr 1

theorem emit_cells_length (dfa : Array DfaNode) (node : DfaNode) (c : Nat)
    (h : node.trans.countP (fun p => bitset_get p.1 c) ≤ 1) :
    (emit_cells dfa node c).length = 1 := by
  unfold emit_cells
  rcases hf : node.trans.filter (fun p => bitset_get p.1 c) with _ | ⟨tr, rest⟩
  · simp [hf]
  · have hlen := List.countP_eq_length_filter (fun p => bitset_get p.1 c) node.trans
    rw [hf, List.length_cons] at hlen
    have hrest : rest.length = 0 := by omega
    rw [List.length_eq_zero] at hrest
    subst hrest
    simp [hf]

theorem emit_cells_headD (dfa : Array DfaNode) (node : DfaNode) (c : Nat)
    (h : node.trans.countP (fun p => bitset_get p.1 c) ≤ 1) :
    (emit_cells dfa node c).headD 0 =
      (match do_goto node c with
       | some t => Int.ofNat (aget dfa t).index
       | none => 0) := by
  unfold emit_cells do_goto
  rw [find?_eq_head?_filter]
  rcases hf : node.trans.filter (fun p => bitset_get p.1 c) with _ | ⟨tr, rest⟩
  · simp [hf]
  · have hlen := List.countP_eq_length_filter (fun p => bitset_get p.1 c) node.trans
    rw [hf, List.length_cons] at hlen
    have hrest : rest.length = 0 := by omega
    rw [List.length_eq_zero] at hrest
    subst hrest
    simp [hf]

/-- C3 amended: an existing DFA node `dk` is reused iff
`bitset_equals(dk.nfa_set, dj_set)` holds, and that macro
(`intersection_count(b1,b2) == count(b1)`) tests the subset relation
`dk.nfa_set ⊆ dj_set` over the 128-bit domain, not set equality; only when no
existing node's set is a subset of `dj_set` is a new DFA node created and
enqueued. -/
theorem C3_bitset_equals_is_subset (a b : Nat) :
    bitset_equals a b = true ↔
      ∀ i, i < 128 → a.testBit i = true → b.testBit i = true := by
  unfold bitset_equals bitset_intersection_count bitset_count
  rw [beq_iff_eq]
  constructor
  · intro h i hi hbit
    have hsub : List.Sublist
        ((List.range 128).filter (fun i => a.testBit i && b.testBit i))
        ((List.range 128).filter (fun i => a.testBit i)) :=
      List.monotone_filter_right _ (fun x hx => ((Bool.and_eq_true _ _).mp hx).1)
    have hlen : ((List.range 128).filter (fun i => a.testBit i && b.testBit i)).length =
        ((List.range 128).filter (fun i => a.testBit i)).length := by
      rw [← List.countP_eq_length_filter, ← List.countP_eq_length_filter]
      exact h
    have heq := hsub.eq_of_length hlen
    have hmem : i ∈ (List.range 128).filter (fun i => a.testBit i) := by
      rw [List.mem_filter]
      exact ⟨List.mem_range.mpr hi, hbit⟩
    rw [← heq] at hmem
    exact ((Bool.and_eq_true _ _).mp (List.mem_filter.mp hmem).2).2
  · intro h
    apply List.countP_congr
    intro x hx
    constructor
    · intro hb
      exact ((Bool.and_eq_true _ _).mp hb).1
    · intro hb
      exact (Bool.and_eq_true _ _).mpr ⟨hb, h x (List.mem_range.mp hx) hb⟩

theorem accepts_eq_of_trans_eq (dfa : Array DfaNode) (i j : Nat)
    (h : (aget dfa i).trans = (aget dfa j).trans) : dfa_states_equiv dfa i j := by
  intro s
  cases s with
  | nil => simp [dfa_accepts, dfa_run, h]
  | cons c cs => simp [dfa_accepts, dfa_run, do_goto, h]

theorem advance_inquote (c : Char) (cs : List Char) (tok : RegexToken) (lx : Char)
    (hc : c ≠ '"') (hcs : '"' ∉ cs) :
    advance { input := c :: cs, current_token := tok, current_lexeme := lx, in_quote := true } =
      { input := cs, current_token := RegexToken.literal, current_lexeme := c,
        in_quote := true } := by
  have hcb : (c == '"') = false := by simp [hc]
  have hesc : (c == '\\' && cs.head? == some '"') = false := by
    cases hcc : (c == '\\') with
    | false => simp
    | true =>
      cases cs with
      | nil => simp
      | cons h t =>
        have hne : h ≠ '"' := fun he => hcs (he ▸ List.mem_cons_self h t)
        simp [hne]
  simp [advance, hcb, hesc]

theorem lex_tokens_go_quote :
    ∀ (cs : List Char) (tok : RegexToken) (lx : Char), '"' ∉ cs →
      lex_tokens_go (cs.length + 1)
        { input := cs, current_token := tok, current_lexeme := lx, in_quote := true } =
        List.replicate cs.length RegexToken.literal ++ [RegexToken.eoi] := by
  intro cs
  induction cs with
  | nil =>
    intro tok lx _
    simp [lex_tokens_go, advance]
  | cons c t ih =>
    intro tok lx hq
    have hc : c ≠ '"' := fun he => hq (he ▸ List.mem_cons_self c t)
    have ht : '"' ∉ t := fun hm => hq (List.mem_cons_of_mem _ hm)
    have hstep := advance_inquote c t tok lx hc ht
    show lex_tokens_go (t.length + 1 + 1) _ = _
    rw [lex_tokens_go, hstep]
    simp [ih RegexToken.literal c ht, List.replicate_succ]

/-- C7 amended: `minimize_dfa` treats a DFA state as accepting iff it has no
outgoing transitions — the initial partitioning puts a state in class 0
exactly when its transition list is empty, and in class 1 otherwise;
containing the NFA's terminal node is not equivalent to this (for `a*` the
start state contains the terminal yet is placed in the non-accepting
class 1). -/
theorem C7_partition_by_transitions (dfa : Array DfaNode) (i : Nat) (hi : i < dfa.size) :
    ((dfa_init_partitions dfa).1.getD i default).partition =
      (if (aget dfa i).trans.isEmpty then 0 else 1) := by
  unfold dfa_init_partitions
  simp [Array.getD, Array.size_map, Array.size_range, hi, Array.getElem_map,
    Array.getElem_range]

theorem do_dash_uninit_first (fuel : Nat) (st : PState) (bset : Nat)
    (hf : 0 < fuel) (htok : st.lex.current_token = RegexToken.dash) :
    do_dash fuel st bset none = Except.error Err.uninitRead := by
  cases fuel with
  | zero => exact absurd hf (by simp)
  | succ n =>
    rw [do_dash, htok]
    rfl

/-- C1: minimization does not preserve the language.  For the regex `a|b` the
pre-minimization DFA accepts the string "b" (code 98), but the minimized DFA,
started at the class of the original start state, rejects it: the collapse
step dropped the transition on 'b'.  This refutes the claim that for every
input string the two DFAs agree. -/
theorem C1_minimize_loses_language :
    dfa_accepts (dfaOf "a|b") 0 [98] = true ∧
    dfa_accepts (minimize_dfa (dfaOf "a|b")) (minimize_start (dfaOf "a|b")) [98] = false := by
  decide

/-- C2 counterexample: for the regex `a` the DFA has the transition
0 ─'a'→ 1, so the claim requires `TABLE[1]['a'] = target + 1 = 2`; the emitted
cell is the raw 0-based target index 1. -/
theorem C2_cell_is_raw_target_index :
    do_goto (aget (dfaOf "a") 0) 97 = some 1 ∧
    ((emit_dfa_state_table (dfaOf "a")).getD 1 []).getD 97 0 = 1 ∧
    ((1 : Int)) ≠ 1 + 1 := by
  decide

/-- C2 amended: row 0 of the emitted table is all `-1`; for every DFA state
`d` and ASCII code `c ∈ [0,126]`, given pairwise-disjoint label bitsets (at
most one transition matches each character), `TABLE[d+1][c]` holds the
target's 0-based `index` field when state `d` has a transition on `c`, and
`0` otherwise — the target index, not `target + 1`. -/
theorem C2_table_cells (dfa : Array DfaNode)
    (hdisj : ∀ node ∈ dfa.toList, ∀ c, c < 127 →
      node.trans.countP (fun p => bitset_get p.1 c) ≤ 1)
    (d c : Nat) (hd : d < dfa.size) (hc : c < 127) :
    (emit_dfa_state_table dfa).getD 0 [] = List.replicate 127 (-1) ∧
    ((emit_dfa_state_table dfa).getD (d + 1) []).getD c 0 =
      (match do_goto (aget dfa d) c with
       | some t => Int.ofNat (aget dfa t).index
       | none => 0) := by
  constructor
  · rfl
  · have hdl : d < dfa.toList.length := by rw [Array.length_toList]; exact hd
    have hrow : (emit_dfa_state_table dfa).getD (d + 1) [] = emit_row dfa (aget dfa d) := by
      show (List.replicate 127 (-1) :: dfa.toList.map (emit_row dfa)).getD (d + 1) [] = _
      rw [List.getD_cons_succ, getD_map_lt (emit_row dfa) dfa.toList d hdl]
      rw [aget_eq_getElem dfa d hd]
      congr 1
    rw [hrow]
    have hmem : aget dfa d ∈ dfa.toList := by
      rw [aget_eq_getElem dfa d hd, ← Array.getElem_toList hd]
      exact List.getElem_mem hdl
    have hlen1 : ∀ x ∈ List.range 127, (emit_cells dfa (aget dfa d) x).length = 1 :=
      fun x hx => emit_cells_length dfa _ x (hdisj _ hmem x (List.mem_range.mp hx))
    have hcr : c < (List.range 127).length := by simpa using hc
    unfold emit_row
    rw [flatMap_len1_getD (emit_cells dfa (aget dfa d)) (List.range 127) hlen1 c hcr]
    rw [List.getElem_range c hcr]
    exact emit_cells_headD dfa _ c (hdisj _ hmem c hc)

/-- C2 witness: the amended table law at the pipeline DFA of the regex `a`,
state 0, character 'a' (97): the cell holds the target index 1. -/
theorem C2_table_cells_witness :
    ((∀ node ∈ (dfaOf "a").toList, ∀ c, c < 127 →
        node.trans.countP (fun p => bitset_get p.1 c) ≤ 1) ∧
      0 < (dfaOf "a").size ∧ 97 < 127) ∧
    ((emit_dfa_state_table (dfaOf "a")).getD 0 [] = List.replicate 127 (-1) ∧
     ((emit_dfa_state_table (dfaOf "a")).getD (0 + 1) []).getD 97 0 =
       (match do_goto (aget (dfaOf "a") 0) 97 with
        | some t => Int.ofNat (aget (dfaOf "a") t).index
        | none => 0)) :=
  ⟨⟨by decide, by decide, by decide⟩,
   C2_table_cells (dfaOf "a") (by decide) 0 97 (by decide) (by decide)⟩

/-- C3 counterexample: for the regex `ab|[ab]b` subset construction makes
state 1's transition on 'b' target state 3, although
`closure(move(state1, 'b'))` is the set {4,7,8} (mask 400) while state 3's
`nfa_set` is {7,8} (mask 384); no DFA state carries the set 400 and no new
node was created for it — an existing node was reused although its set only
a strict subset of the candidate set, refuting reuse-iff-set-equality. -/
theorem C3_reuse_without_equality :
    do_goto (aget (dfaOf "ab|[ab]b") 1) 98 = some 3 ∧
    move (nfaOf "ab|[ab]b") (aget (dfaOf "ab|[ab]b") 1).bitset 98 = some 144 ∧
    epsilon_closure (nfaOf "ab|[ab]b") 144 = 400 ∧
    (aget (dfaOf "ab|[ab]b") 3).bitset = 384 ∧
    ((384 : Nat)) ≠ 400 ∧
    ((List.range (dfaOf "ab|[ab]b").size).all
      (fun i => (aget (dfaOf "ab|[ab]b") i).bitset != 400)) = true := by
  decide

/-- C3 witness: the subset characterization of `bitset_equals` at the
concrete masks 5 = {0,2} and 7 = {0,1,2} (a strict subset, which the macro
reports as equal). -/
theorem C3_bitset_equals_is_subset_witness :
    bitset_equals 5 7 = true ↔
      ∀ i, i < 128 → Nat.testBit 5 i = true → Nat.testBit 7 i = true :=
  C3_bitset_equals_is_subset 5 7

/-- C4: in `minimize_dfa`'s collapse for the regex `a|b`, the representative
(state 0) has two transitions, labelled {'a'} and {'b'}, whose targets 1 and
2 both lie in partition 0; the output node keeps only the first transition
with label {'a'} — the second label is dropped, not unioned. -/
theorem C4_parallel_labels_not_merged :
    ((minimize_refine (dfaOf "a|b")).1.getD 1 default).partition = 0 ∧
    ((minimize_refine (dfaOf "a|b")).1.getD 2 default).partition = 0 ∧
    (aget (dfaOf "a|b") 0).trans = [(bitset_set 0 97, 1), (bitset_set 0 98, 2)] ∧
    (aget (minimize_dfa (dfaOf "a|b")) (minimize_start (dfaOf "a|b"))).trans =
      [(bitset_set 0 97, 0)] := by
  decide

/-- C5 counterexample: the minimized DFA for `ab|b` contains the distinct
states 1 and 2 with identical transition lists; they accept exactly the same
strings, so two distinct equivalent states remain after minimization. -/
theorem C5_two_equivalent_states :
    1 < (minimize_dfa (dfaOf "ab|b")).size ∧
    2 < (minimize_dfa (dfaOf "ab|b")).size ∧
    ((1 : Nat)) ≠ 2 ∧
    dfa_states_equiv (minimize_dfa (dfaOf "ab|b")) 1 2 :=
  ⟨by decide, by decide, by decide, accepts_eq_of_trans_eq _ 1 2 (by decide)⟩

/-- C5 amended: the refinement loop makes one pass of a single index over the
partition list as it grows and never revisits earlier partitions, so the
output can contain equivalent states: for `ab|b` the three output states
include states 1 and 2 with the same transition list `{'b'} → 0` and the
same accepting status. -/
theorem C5_single_pass_leaves_duplicates :
    (minimize_dfa (dfaOf "ab|b")).size = 3 ∧
    (aget (minimize_dfa (dfaOf "ab|b")) 1).trans = [(bitset_set 0 98, 0)] ∧
    (aget (minimize_dfa (dfaOf "ab|b")) 2).trans = [(bitset_set 0 98, 0)] ∧
    (aget (minimize_dfa (dfaOf "ab|b")) 1).trans.isEmpty =
      (aget (minimize_dfa (dfaOf "ab|b")) 2).trans.isEmpty := by
  decide

/-- C6: after refinement of the DFA for `ab|b` the partition lists at
collapse time are `[[2,3], [nil,1], [1]]`: the moved state 1 is still listed
in its old partition 1 while also being the sole member of the new partition
2, and state 0 — which was never distinguishable — has been nulled out of
partition 1, because the removal loop nulls positions `0..removals-1`
instead of the recorded removal positions. -/
theorem C6_partitions_corrupted :
    (minimize_refine (dfaOf "ab|b")).2 =
      #[#[some 2, some 3], #[none, some 1], #[some 1]] := by
  decide

/-- C7 counterexample: for `a*` the unique NFA terminal is node 4; the DFA
start state's `nfa_set` contains it, yet that state has an outgoing
transition — so "nfa_set contains the terminal" and "has no outgoing
transitions" are not equivalent, and the start state is not accepting under
the implementation's no-transitions criterion. -/
theorem C7_accepting_criteria_disagree :
    nfa_terminals (nfaOf "a*") = [4] ∧
    bitset_get (aget (dfaOf "a*") 0).bitset 4 = true ∧
    (aget (dfaOf "a*") 0).trans.isEmpty = false ∧
    ¬(bitset_get (aget (dfaOf "a*") 0).bitset 4 = true ↔
      (aget (dfaOf "a*") 0).trans.isEmpty = true) := by
  decide

/-- C7 witness: the amended classification applied at the pipeline DFA of
`a*`, state 0: it is placed in the non-accepting class because its
transition list is non-empty. -/
theorem C7_partition_by_transitions_witness :
    0 < (dfaOf "a*").size ∧
    ((dfa_init_partitions (dfaOf "a*")).1.getD 0 default).partition =
      (if (aget (dfaOf "a*") 0).trans.isEmpty then 0 else 1) :=
  ⟨by decide, C7_partition_by_transitions (dfaOf "a*") 0 (by decide)⟩

/-- C8 counterexample: the inputs `*` and `a|*` fail at different character
offsets (0 and 2) yet produce the identical diagnostic, so the single
diagnostic does not identify the offending character offset. -/
theorem C8_diagnostic_lacks_offset :
    thompson "*" = Except.error Err.starMustFollow ∧
    thompson "a|*" = Except.error Err.starMustFollow ∧
    List.findIdx (fun c => c == '*') "*".toList ≠
      List.findIdx (fun c => c == '*') "a|*".toList := by
  decide

/-- C8 amended: each listed syntactic error aborts the compilation with a
single diagnostic naming the offending construct (no table can be produced
since the result is an error), but the diagnostic carries no character
offset. -/
theorem C8_fatal_diagnostics :
    thompson "*" = Except.error Err.starMustFollow ∧
    thompson "+" = Except.error Err.plusMustFollow ∧
    thompson "?" = Except.error Err.questionMustFollow ∧
    thompson "a]" = Except.error Err.strayRightBracket ∧
    thompson "a^" = Except.error Err.strayCarat ∧
    thompson "(a" = Except.error Err.expectedRightParen := by
  decide

/-- C9: with quote mode open and no closing '"' anywhere in the remaining
input, the lexer classifies every remaining character as a Literal token and
then yields EOI, with no diagnostic and no abort (advance is total); a lone
'"' as the final input character also yields EOI. -/
theorem C9_unterminated_quote (s t : LexState)
    (hq : s.in_quote = true) (hnq : '"' ∉ s.input) (ht : t.input = ['"']) :
    lex_tokens s =
      List.replicate s.input.length RegexToken.literal ++ [RegexToken.eoi] ∧
    (advance t).current_token = RegexToken.eoi := by
  constructor
  · rcases s with ⟨inp, tok, lx, q⟩
    cases hq
    exact lex_tokens_go_quote inp tok lx hnq
  · rcases t with ⟨inp, tok2, lx2, q2⟩
    cases ht
    rfl

/-- C9 witness: the theorem at the concrete lexer state with remaining input
"ab" inside an open quote, and at a state whose remaining input is a lone
quote. -/
theorem C9_unterminated_quote_witness :
    (lexQuoteSample.in_quote = true ∧ '"' ∉ lexQuoteSample.input ∧
     lexLoneQuote.input = ['"']) ∧
    (lex_tokens lexQuoteSample =
       List.replicate lexQuoteSample.input.length RegexToken.literal ++ [RegexToken.eoi] ∧
     (advance lexLoneQuote).current_token = RegexToken.eoi) :=
  ⟨⟨rfl, by decide, rfl⟩,
   C9_unterminated_quote lexQuoteSample lexLoneQuote rfl (by decide) rfl⟩

/-- C10: the range branch of `do_dash` reached with `first` still
uninitialized (a character class whose first member token is '-') is
surfaced by the total embedding as the error `uninitRead`: generally, from
any parser state whose current token is Dash, and concretely the full
pipeline on the regex `[-z]` aborts with `uninitRead`. -/
theorem C10_dash_reads_uninitialized (fuel : Nat) (st : PState) (bset : Nat)
    (hf : 0 < fuel) (htok : st.lex.current_token = RegexToken.dash) :
    do_dash fuel st bset none = Except.error Err.uninitRead ∧
    thompson "[-z]" = Except.error Err.uninitRead :=
  ⟨do_dash_uninit_first fuel st bset hf htok, by decide⟩

/-- C10 witness: the theorem at fuel 1 and the concrete dash-token parser
state. -/
theorem C10_dash_reads_uninitialized_witness :
    (0 < 1 ∧ pstDash.lex.current_token = RegexToken.dash) ∧
    (do_dash 1 pstDash 0 none = Except.error Err.uninitRead ∧
     thompson "[-z]" = Except.error Err.uninitRead) :=
  ⟨⟨Nat.one_pos, rfl⟩, C10_dash_reads_uninitialized 1 pstDash 0 Nat.one_pos rfl⟩

end Plainc
